import Mathlib

/-!
Verification of the download-queue scheduler in `yt_downloader/server.py`.

The embedding models the module-level server state (the `tasks` dict, the
`task_order` list, `active_workers`, `current_concurrency`, the task-id
counter, the bounded event log and download history) as an explicit state
record, and each Python function that mutates it as a pure state transformer.
Machine details abstracted, each noted where it occurs:
* timestamps (`now_iso()` / `strftime`) are an abstract monotone clock
  sampled as a `Nat` that is passed to every operation;
* floats (`progress`, `eta`, `speed`, rate limits) are modelled as `ℚ`;
  Python's `round(x, 1)` is modelled as round-half-up on `ℚ`;
* the Python dict `tasks` is an insertion-ordered association list with
  unique keys (dict semantics);
* `sorted(..., key=...)` is a stable sort by key; we use
  `List.insertionSort` with the total preorder induced by the key
  `(-priority, created_at)` (any two stable sorts agree pointwise);
* the actual network engine (`yt_dlp`), Flask transport, and the filesystem
  are outside the scope of every claim and are represented only by the
  success/failure outcome and the progress records they deliver.
-/

/-- Upper bound on the worker pool, `MAX_WORKERS = 12` in the source. -/
def MAX_WORKERS : Int := 12

/-- Initial concurrency limit, `DEFAULT_CONCURRENCY = 2` in the source. -/
def DEFAULT_CONCURRENCY : Int := 2

/-- Bound of the rolling event log, `LOG_LIMIT = 300` in the source. -/
def LOG_LIMIT : Nat := 300

/-- Default download directory; the absolute path prefix is abstracted. -/
def DEFAULT_DOWNLOAD_DIR : String := "downloads"

/-- One entry of `downloads-history.json` as appended by `_run_task`. -/
structure HistoryRecord where
  url : String
  output : String
  format : String
  notes : String
  tags : List String
  quality : String
  timestamp : Nat
deriving DecidableEq

/-- The `DownloadTask` dataclass, restricted to the fields the verified
operations read or write (engine-option fields such as codec, proxy or the
embed flags are dropped: no claim mentions them and no modelled operation
reads them). -/
structure DownloadTask where
  id : Nat
  url : String
  output_dir : String
  format_mode : String
  tags : List String
  notes : String
  priority : Int
  quality_filter : String
  status : String
  progress : ℚ
  eta : Option ℚ
  speed : Option ℚ
  message : String
  filepath : Option String
  created_at : Nat
  last_update : Nat
deriving DecidableEq

/-- The insertion-ordered `tasks` dict, keyed by task id. -/
abbrev TaskMap := List (Nat × DownloadTask)

/-- Dict read, `tasks.get(tid)`. -/
def lookupTask : TaskMap → Nat → Option DownloadTask
  | [], _ => none
  | (k, v) :: rest, tid => if k = tid then some v else lookupTask rest tid

/-- Dict write, `tasks[tid] = task`: replaces the value of an existing key in
place, appends a fresh key at the end (Python dict insertion order). -/
def setTask : TaskMap → Nat → DownloadTask → TaskMap
  | [], tid, t => [(tid, t)]
  | (k, v) :: rest, tid, t =>
      if k = tid then (tid, t) :: rest else (k, v) :: setTask rest tid t

/-- The module-level mutable state of `server.py`. -/
structure ServerState where
  tasks : TaskMap
  task_order : List Nat
  active_workers : Int
  current_concurrency : Int
  task_counter : Nat
  log_lines : List String
  history : List HistoryRecord
deriving DecidableEq

/-- State at import time: empty registry, counter at 1, default limits. -/
def initialState : ServerState :=
  { tasks := []
    task_order := []
    active_workers := 0
    current_concurrency := DEFAULT_CONCURRENCY
    task_counter := 1
    log_lines := []
    history := [] }

/-- The `deque(maxlen=LOG_LIMIT)` append: push right, evict oldest. -/
def pushLog (log : List String) (line : String) : List String :=
  let l := log ++ [line]
  l.drop (l.length - LOG_LIMIT)

/-- The `append_log` helper: timestamp-prefixed line into the bounded log. -/
def appendLog (log : List String) (now : Nat) (message : String) : List String :=
  pushLog log ("[" ++ Nat.repr now ++ "] " ++ message)

/-- The `DownloadHistory.append` trim: keep the last 200 records. -/
def appendHistory (h : List HistoryRecord) (r : HistoryRecord) : List HistoryRecord :=
  let l := h ++ [r]
  l.drop (l.length - 200)

/-- Python `str.capitalize()`: first character upper-cased, rest lower-cased
(ASCII suffices for the status words that occur here). -/
def pyCapitalize (s : String) : String :=
  match s.data with
  | [] => ""
  | c :: rest => String.mk (c.toUpper :: rest.map Char.toLower)

/-- Python whitespace for `str.strip()` (ASCII part). -/
def isPySpace (c : Char) : Bool :=
  c = ' ' || c = '\t' || c = '\n' || c = '\r' || c = '\x0b' || c = '\x0c'

/-- Python `str.strip()` with no arguments. -/
def pyStrip (s : String) : String :=
  String.mk (((s.data.dropWhile isPySpace).reverse.dropWhile isPySpace).reverse)

/-- Helper for `str.splitlines()`: accumulates the current line (reversed). -/
def splitlinesAux : List Char → List Char → List String
  | [], acc => if acc.isEmpty then [] else [String.mk acc.reverse]
  | '\r' :: '\n' :: rest, acc => String.mk acc.reverse :: splitlinesAux rest []
  | '\r' :: rest, acc => String.mk acc.reverse :: splitlinesAux rest []
  | '\n' :: rest, acc => String.mk acc.reverse :: splitlinesAux rest []
  | c :: rest, acc => splitlinesAux rest (c :: acc)

/-- Python `str.splitlines()` over the ASCII line boundaries used here. -/
def splitlines (s : String) : List String := splitlinesAux s.data []

/-- Python `a or b` on optional strings: `None` and `""` are falsy. -/
def pyOrStr (a : Option String) (b : Option String) : Option String :=
  match a with
  | some s => if s = "" then b else some s
  | none => b

/-- Python `payload.get(k) or default` for string payload fields. -/
def pyOrD (a : Option String) (d : String) : String :=
  match a with
  | some s => if s = "" then d else s
  | none => d

/-- Python `round(q, 1)` over `ℚ` (half-up; float half-to-even ties are not
observable in any claim). -/
def pyRound1 (q : ℚ) : ℚ :=
  (round (10 * q) : ℚ) / 10

/-- Aggregate block of `gather_insights`. -/
structure Insights where
  queued : Nat
  scheduled : Nat
  running : Nat
  completed : Nat
  failed : Nat
  avg_progress : ℚ
deriving DecidableEq

/-- The `gather_insights` snapshot: per-status counts (`Counter.get(s, 0)`)
and the average progress, `0.0` when the registry is empty. -/
def gather_insights (st : ServerState) : Insights :=
  let snapshot := st.tasks.map Prod.snd
  let total := snapshot.length
  let avg_progress : ℚ :=
    if total ≠ 0 then (snapshot.map (·.progress)).sum / total else 0
  { queued := (snapshot.filter (·.status == "Queued")).length
    scheduled := (snapshot.filter (·.status == "Scheduled")).length
    running := (snapshot.filter (·.status == "Running")).length
    completed := (snapshot.filter (·.status == "Completed")).length
    failed := (snapshot.filter (·.status == "Failed")).length
    avg_progress := pyRound1 avg_progress }

/-- One keyword argument of `update_task(task_id, **kwargs)`. The named
constructors are the attributes actually passed by the callers in the
source; `unknownField` stands for any key that is not an attribute of the
dataclass, which `hasattr` filters out. -/
inductive UpdateField where
  | status (v : String)
  | message (v : String)
  | progress (v : ℚ)
  | eta (v : Option ℚ)
  | speed (v : Option ℚ)
  | filepath (v : Option String)
  | unknownField (key : String)
deriving DecidableEq

/-- The `setattr(task, key, value) if hasattr(task, key)` body of the
`update_task` loop. -/
def applyField (t : DownloadTask) : UpdateField → DownloadTask
  | .status v => { t with status := v }
  | .message v => { t with message := v }
  | .progress v => { t with progress := v }
  | .eta v => { t with eta := v }
  | .speed v => { t with speed := v }
  | .filepath v => { t with filepath := v }
  | .unknownField _ => t

/-- Whether a keyword names an attribute of the dataclass (`hasattr`). -/
def isKnownField : UpdateField → Bool
  | .unknownField _ => false
  | _ => true

/-- `update_task`: not-found is a no-op returning `None`; otherwise every
recognized field is applied and `last_update` is refreshed. -/
def update_task (st : ServerState) (task_id : Nat) (kwargs : List UpdateField)
    (now : Nat) : Option DownloadTask × ServerState :=
  match lookupTask st.tasks task_id with
  | none => (none, st)
  | some t =>
      let t2 := { kwargs.foldl applyField t with last_update := now }
      (some t2, { st with tasks := setTask st.tasks task_id t2 })

/-- Priority of a task id under the `tasks` map (ids fed to the sort are
always present; the default is irrelevant). -/
def priOf (m : TaskMap) (tid : Nat) : Int :=
  ((lookupTask m tid).map (·.priority)).getD 0

/-- Creation stamp of a task id under the `tasks` map. -/
def createdOf (m : TaskMap) (tid : Nat) : Nat :=
  ((lookupTask m tid).map (·.created_at)).getD 0

/-- The total preorder induced by the sort key
`(-tasks[tid].priority, tasks[tid].created_at)` of `try_schedule_next`. -/
def schedLE (m : TaskMap) (a b : Nat) : Prop :=
  priOf m b < priOf m a ∨ (priOf m a = priOf m b ∧ createdOf m a ≤ createdOf m b)

instance (m : TaskMap) : DecidableRel (schedLE m) := fun a b => by
  unfold schedLE; infer_instance

/-- The guard `tid in tasks and tasks[tid].status == "Queued"`. -/
def statusIsQueued (m : TaskMap) (tid : Nat) : Bool :=
  match lookupTask m tid with
  | some t => t.status == "Queued"
  | none => false

/-- The `while active_workers < current_concurrency and queued_ids:` loop of
`try_schedule_next`: pop the head id, re-check it is still `Queued`, mark it
`Scheduled`, bump the worker count, and record it in `to_start`. -/
def admitLoop (now : Nat) : List Nat → TaskMap → Int → Int → TaskMap × Int × List Nat
  | [], tasks, active, _limit => (tasks, active, [])
  | tid :: rest, tasks, active, limit =>
      if active < limit then
        match lookupTask tasks tid with
        | none => admitLoop now rest tasks active limit
        | some t =>
            if t.status = "Queued" then
              let r := admitLoop now rest
                (setTask tasks tid { t with status := "Scheduled", last_update := now })
                (active + 1) limit
              (r.1, r.2.1, tid :: r.2.2)
            else admitLoop now rest tasks active limit
      else (tasks, active, [])

/-- The generator `(tid for tid in task_order if tid in tasks and
tasks[tid].status == "Queued")` of `try_schedule_next`. -/
def queuedIds (st : ServerState) : List Nat :=
  st.task_order.filter (fun tid => statusIsQueued st.tasks tid)

/-- The snapshot `sorted(queued_ids, key=lambda tid: (-priority, created_at))`
of `try_schedule_next`. Python's `sorted` is a stable sort by key, so it is
pointwise equal to the stable `insertionSort` under the key preorder. -/
def sortedQueuedIds (st : ServerState) : List Nat :=
  List.insertionSort (schedLE st.tasks) (queuedIds st)

/-- `try_schedule_next`: snapshot the `Queued` ids in registry order, stable
sort by `(-priority, created_at)`, and admit from the head while capacity
remains. Returns the new state and the `to_start` ids handed to workers. -/
def try_schedule_next (st : ServerState) (now : Nat) : ServerState × List Nat :=
  let r := admitLoop now (sortedQueuedIds st) st.tasks st.active_workers st.current_concurrency
  ({ st with tasks := r.1, active_workers := r.2.1 }, r.2.2)

/-- The progress record handed to `_progress_hook` by the engine. A numeric
`percent` is `some q`; a missing or non-numeric one is `none` (the hook
treats both identically via its `isinstance` test). -/
structure ProgressInfo where
  percent : Option ℚ
  speed : Option ℚ
  eta : Option ℚ
  status : Option String
  filename : Option String
  underscore_filename : Option String

/-- The status text of a progress record, `info.get("status") or "running"`. -/
def statusTextOf (info : ProgressInfo) : String :=
  match info.status with
  | some s => if s = "" then "running" else s
  | none => "running"

/-- The detected file name, `info.get("filename") or info.get("_filename")`. -/
def filenameOf (info : ProgressInfo) : Option String :=
  pyOrStr info.filename info.underscore_filename

/-- `_progress_hook(task_id, info)`: normalize the record and apply it
through `update_task`. -/
def progress_hook (st : ServerState) (task_id : Nat) (info : ProgressInfo)
    (now : Nat) : ServerState :=
  let status := statusTextOf info
  let filename := filenameOf info
  let pct_value : ℚ := match info.percent with | some q => pyRound1 q | none => 0
  let message := match pyOrStr filename (some status) with
                 | some s => s
                 | none => status
  let base : List UpdateField :=
    [.progress pct_value, .status (pyCapitalize status), .eta info.eta,
     .speed info.speed, .message message]
  let kwargs := base ++ (match filename with
                         | some s => if s = "" then [] else [.filepath (some s)]
                         | none => [])
  (update_task st task_id kwargs now).2

/-- First half of `_run_task`, before the engine call: log the start and mark
the task `Running` with reset progress. -/
def run_task_start (st : ServerState) (task : DownloadTask) (now : Nat) : ServerState :=
  let st1 := { st with log_lines := appendLog st.log_lines now ("Starting " ++ task.url) }
  (update_task st1 task.id
    [.status "Running", .message "Preparing download", .progress 0] now).2

/-- The history record appended on success. -/
def mkHistoryRecord (task : DownloadTask) (now : Nat) : HistoryRecord :=
  { url := task.url, output := task.output_dir, format := task.format_mode
    notes := task.notes, tags := task.tags, quality := task.quality_filter
    timestamp := now }

/-- Tail of `_run_task`: the `except`/`else` arms (terminal status, log,
history), then the `finally` block (decrement `active_workers`, re-run the
admission pass). `ok` is whether the engine returned without raising; `err`
is `str(exc)` otherwise. -/
def run_task_finish_body (st : ServerState) (task : DownloadTask) (ok : Bool)
    (err : String) (now : Nat) : ServerState :=
  if ok then
    let st2 := (update_task st task.id
      [.status "Completed", .message "Download finished", .progress 100] now).2
    { st2 with
      history := appendHistory st2.history (mkHistoryRecord task now)
      log_lines := appendLog st2.log_lines now ("Finished " ++ task.url) }
  else
    let st2 := (update_task st task.id [.status "Failed", .message err] now).2
    { st2 with
      log_lines := appendLog st2.log_lines now ("Failed " ++ task.url ++ ": " ++ err) }

/-- Tail of `_run_task` (continued): after the terminal update, the `finally`
block decrements `active_workers` (floored at zero by `max(active - 1, 0)`)
and re-runs the admission pass. -/
def run_task_finish (st : ServerState) (task : DownloadTask) (ok : Bool)
    (err : String) (now : Nat) : ServerState × List Nat :=
  let st1 := run_task_finish_body st task ok err now
  try_schedule_next { st1 with active_workers := max (st1.active_workers - 1) 0 } now

/-- The JSON payload of a submission / start request, restricted to the keys
the modelled operations read. A key absent from the JSON object is `none`. -/
structure Payload where
  urls : Option String := none
  output_dir : Option String := none
  format_mode : Option String := none
  tags : Option String := none
  notes : Option String := none
  priority : Option Int := none
  quality_filter : Option String := none

/-- The parsed URL list of `queue_tasks`:
`[line.strip() for line in (payload.get("urls") or "").splitlines() if line.strip()]`. -/
def parsedUrls (payload : Payload) : List String :=
  (splitlines (pyOrD payload.urls "")).filterMap (fun line =>
    let s := pyStrip line
    if s = "" then none else some s)

/-- `int(payload.get("priority") or 3)`: `None` and `0` are falsy. -/
def priorityValOf (payload : Payload) : Int :=
  match payload.priority with
  | some v => if v = 0 then 3 else v
  | none => 3

/-- The comma-separated tag list of `queue_tasks`. -/
def parsedTags (payload : Payload) : List String :=
  ((pyOrD payload.tags "").splitOn ",").filterMap (fun seg =>
    let s := pyStrip seg
    if s = "" then none else some s)

/-- The `DownloadTask(...)` constructor call inside `queue_tasks`, with the
dataclass defaults for the runtime fields. -/
def mkTask (payload : Payload) (url : String) (priority : Int) (tid : Nat)
    (now : Nat) : DownloadTask :=
  { id := tid
    url := url
    output_dir := pyOrD payload.output_dir DEFAULT_DOWNLOAD_DIR
    format_mode := pyOrD payload.format_mode "Smart (best combined)"
    tags := parsedTags payload
    notes := pyOrD payload.notes ""
    priority := priority
    quality_filter := pyOrD payload.quality_filter "best"
    status := "Queued"
    progress := 0
    eta := none
    speed := none
    message := "Queued"
    filepath := none
    created_at := now
    last_update := now }

/-- Loop body of `queue_tasks`: allocate the next id, store the task, append
to the order sequence, log. -/
def queueStep (payload : Payload) (priority : Int) (now : Nat)
    (acc : List DownloadTask × ServerState) (url : String) :
    List DownloadTask × ServerState :=
  let s := acc.2
  let tid := s.task_counter
  let t := mkTask payload url priority tid now
  (acc.1 ++ [t],
   { s with
     task_counter := tid + 1
     tasks := setTask s.tasks tid t
     task_order := s.task_order ++ [tid]
     log_lines := appendLog s.log_lines now ("Queued " ++ url) })

/-- `queue_tasks(payload)`: an empty or whitespace-only URL list creates no
jobs; otherwise one `Queued` task per surviving line, in order. -/
def queue_tasks (st : ServerState) (payload : Payload) (now : Nat) :
    List DownloadTask × ServerState :=
  let urls := parsedUrls payload
  if urls = [] then ([], st)
  else
    let priority := max 1 (min (priorityValOf payload) 10)
    urls.foldl (queueStep payload priority now) ([], st)

/-- The `status in ("Completed", "Failed")` test of `clear_completed_tasks`. -/
def isTerminalStatus (s : String) : Bool :=
  s == "Completed" || s == "Failed"

/-- `clear_completed_tasks`: pop every terminal job from the dict, splice it
out of the order sequence, count, and log when anything was removed. -/
def clear_completed_tasks (st : ServerState) (now : Nat) : Nat × ServerState :=
  let to_remove := (st.tasks.filter (fun p => isTerminalStatus p.2.status)).map Prod.fst
  let tasks1 := to_remove.foldl (fun m tid => m.eraseP (fun p => p.1 == tid)) st.tasks
  let order1 := to_remove.foldl
    (fun o tid => if tid ∈ o then o.erase tid else o) st.task_order
  let removed := to_remove.length
  let log1 :=
    if removed ≠ 0 then
      appendLog st.log_lines now ("Cleared " ++ Nat.repr removed ++ " finished task(s)")
    else st.log_lines
  (removed, { st with tasks := tasks1, task_order := order1, log_lines := log1 })

/-- `set_concurrency(value)`: clamp into `[1, MAX_WORKERS]` and log. -/
def set_concurrency (st : ServerState) (value : Int) (now : Nat) : ServerState :=
  let c := max 1 (min value MAX_WORKERS)
  { st with
    current_concurrency := c
    log_lines := appendLog st.log_lines now ("Concurrency tuned to " ++ toString c) }

/-- The `/api/start` route: read the requested concurrency (defaulting to the
current limit), apply `set_concurrency`, and run one admission pass. -/
def api_start_queue (st : ServerState) (concurrency : Option Int) (now : Nat) :
    ServerState :=
  let value := concurrency.getD st.current_concurrency
  (try_schedule_next (set_concurrency st value now) now).1

/-- The five documented job states. -/
def legalStatuses : List String :=
  ["Queued", "Scheduled", "Running", "Completed", "Failed"]

/-- The documented state-machine edges:
`Queued → Scheduled → Running → {Completed | Failed}`. -/
def allowedEdge (a b : String) : Prop :=
  (a = "Queued" ∧ b = "Scheduled") ∨
  (a = "Scheduled" ∧ b = "Running") ∨
  (a = "Running" ∧ (b = "Completed" ∨ b = "Failed"))

/-- One externally triggered operation on the shared state. Worker events
carry the `DownloadTask` object the closure captured, as in the source. -/
inductive Event where
  | queue (payload : Payload) (now : Nat)
  | schedule (now : Nat)
  | runStart (task : DownloadTask) (now : Nat)
  | progress (task_id : Nat) (info : ProgressInfo) (now : Nat)
  | runFinish (task : DownloadTask) (ok : Bool) (err : String) (now : Nat)
  | clear (now : Nat)
  | setConcurrency (n : Int) (now : Nat)
  | apiStart (n : Option Int) (now : Nat)

/-- The state transition of each event. -/
def applyEvent (st : ServerState) : Event → ServerState
  | .queue payload now => (queue_tasks st payload now).2
  | .schedule now => (try_schedule_next st now).1
  | .runStart task now => run_task_start st task now
  | .progress task_id info now => progress_hook st task_id info now
  | .runFinish task ok err now => (run_task_finish st task ok err now).1
  | .clear now => (clear_completed_tasks st now).2
  | .setConcurrency n now => set_concurrency st n now
  | .apiStart n now => api_start_queue st n now

/-- Whether the event may change the concurrency limit. -/
def Event.tunesLimit : Event → Bool
  | .setConcurrency _ _ => true
  | .apiStart _ _ => true
  | _ => false

/-- Whether the event is a progress-reporter callback. -/
def Event.isProgress : Event → Bool
  | .progress _ _ _ => true
  | _ => false

/-- Execution-order facts the real program guarantees for worker events: a
worker starts a task it was handed while `Scheduled`, and finishes the task
it started, which is then `Running`. All other events are unconstrained. -/
def EventWF (st : ServerState) : Event → Prop
  | .runStart task _ =>
      ∃ t, lookupTask st.tasks task.id = some t ∧ t.status = "Scheduled"
  | .runFinish task _ _ _ =>
      ∃ t, lookupTask st.tasks task.id = some t ∧ t.status = "Running"
  | _ => True

/-- Keys of the `tasks` dict are distinct (dict semantics). -/
def keysNodup (m : TaskMap) : Prop := (m.map Prod.fst).Nodup

instance (m : TaskMap) : Decidable (keysNodup m) := by
  unfold keysNodup; infer_instance

theorem lookupTask_setTask_self (m : TaskMap) (k : Nat) (v : DownloadTask) :
    lookupTask (setTask m k v) k = some v := by
  induction m with
  | nil => simp [setTask, lookupTask]
  | cons p rest ih =>
      obtain ⟨k0, v0⟩ := p
      by_cases h : k0 = k
      · subst h; simp [setTask, lookupTask]
      · simp [setTask, lookupTask, h, ih]

theorem lookupTask_setTask_ne (m : TaskMap) (k k' : Nat) (v : DownloadTask)
    (h : k' ≠ k) : lookupTask (setTask m k v) k' = lookupTask m k' := by
  induction m with
  | nil =>
      simp only [setTask, lookupTask]
      rw [if_neg (fun hh => h hh.symm)]
  | cons p rest ih =>
      obtain ⟨k0, v0⟩ := p
      by_cases hk : k0 = k
      · subst hk
        simp only [setTask, if_pos rfl, lookupTask]
        rw [if_neg (fun hh => h hh.symm), if_neg (fun hh => h hh.symm)]
      · simp only [setTask, if_neg hk, lookupTask]
        by_cases hk' : k0 = k'
        · simp [hk']
        · simp [hk', ih]

theorem mem_of_lookupTask_eq_some {m : TaskMap} {k : Nat} {v : DownloadTask}
    (h : lookupTask m k = some v) : (k, v) ∈ m := by
  induction m with
  | nil => simp [lookupTask] at h
  | cons p rest ih =>
      obtain ⟨k0, v0⟩ := p
      by_cases hk : k0 = k
      · subst hk
        simp only [lookupTask, if_pos, Option.some_inj] at h
        subst h; exact List.mem_cons_self _ _
      · simp only [lookupTask, if_neg hk] at h
        exact List.mem_cons_of_mem _ (ih h)

theorem lookupTask_eq_some_of_mem {m : TaskMap} {k : Nat} {v : DownloadTask}
    (hn : keysNodup m) (h : (k, v) ∈ m) : lookupTask m k = some v := by
  induction m with
  | nil => simp at h
  | cons p rest ih =>
      obtain ⟨k0, v0⟩ := p
      rcases List.mem_cons.mp h with h1 | h1
      · cases h1
        simp [lookupTask]
      · have hk : k0 ≠ k := by
          intro hk
          subst hk
          have : k0 ∈ rest.map Prod.fst := List.mem_map.mpr ⟨(k0, v), h1, rfl⟩
          exact (List.nodup_cons.mp hn).1 this
        have hn' : keysNodup rest := (List.nodup_cons.mp hn).2
        simp [lookupTask, hk, ih hn' h1]

theorem lookupTask_eq_none_of_not_mem {m : TaskMap} {k : Nat}
    (h : k ∉ m.map Prod.fst) : lookupTask m k = none := by
  induction m with
  | nil => rfl
  | cons p rest ih =>
      obtain ⟨k0, v0⟩ := p
      simp only [List.map_cons, List.mem_cons, not_or] at h
      simp [lookupTask, Ne.symm h.1, ih h.2]

theorem mem_keys_of_lookupTask_eq_some {m : TaskMap} {k : Nat} {v : DownloadTask}
    (h : lookupTask m k = some v) : k ∈ m.map Prod.fst :=
  List.mem_map.mpr ⟨(k, v), mem_of_lookupTask_eq_some h, rfl⟩

theorem statusIsQueued_iff (m : TaskMap) (tid : Nat) :
    statusIsQueued m tid = true ↔
      ∃ t, lookupTask m tid = some t ∧ t.status = "Queued" := by
  unfold statusIsQueued
  cases h : lookupTask m tid with
  | none => simp
  | some t => simp [beq_iff_eq]

theorem admitLoop_stuck (now : Nat) (ids : List Nat) (m : TaskMap) (a l : Int)
    (h : ¬ a < l) : admitLoop now ids m a l = (m, a, []) := by
  cases ids with
  | nil => rfl
  | cons tid rest => simp [admitLoop, h]

theorem admitLoop_active_le (now : Nat) :
    ∀ (ids : List Nat) (m : TaskMap) (a l : Int), a ≤ l →
      (admitLoop now ids m a l).2.1 ≤ l := by
  intro ids
  induction ids with
  | nil => intro m a l h; exact h
  | cons tid rest ih =>
      intro m a l h
      by_cases hc : a < l
      · simp only [admitLoop, if_pos hc]
        cases hl : lookupTask m tid with
        | none => exact ih m a l h
        | some t =>
            by_cases hq : t.status = "Queued"
            · simp only [if_pos hq]
              exact ih _ (a + 1) l (by omega)
            · simp only [if_neg hq]
              exact ih m a l h
      · rw [admitLoop_stuck now _ m a l hc]
        exact h

theorem admitLoop_active_nonneg (now : Nat) :
    ∀ (ids : List Nat) (m : TaskMap) (a l : Int), 0 ≤ a →
      0 ≤ (admitLoop now ids m a l).2.1 := by
  intro ids
  induction ids with
  | nil => intro m a l h; exact h
  | cons tid rest ih =>
      intro m a l h
      by_cases hc : a < l
      · simp only [admitLoop, if_pos hc]
        cases hl : lookupTask m tid with
        | none => exact ih m a l h
        | some t =>
            by_cases hq : t.status = "Queued"
            · simp only [if_pos hq]
              exact ih _ (a + 1) l (by omega)
            · simp only [if_neg hq]
              exact ih m a l h
      · rw [admitLoop_stuck now _ m a l hc]
        exact h

theorem admitLoop_lookup (now : Nat) :
    ∀ (ids : List Nat) (m : TaskMap) (a l : Int) (tid : Nat),
      lookupTask (admitLoop now ids m a l).1 tid = lookupTask m tid ∨
      ∃ t, lookupTask m tid = some t ∧ t.status = "Queued" ∧
        lookupTask (admitLoop now ids m a l).1 tid =
          some { t with status := "Scheduled", last_update := now } := by
  intro ids
  induction ids with
  | nil => intro m a l tid; exact Or.inl rfl
  | cons hd rest ih =>
      intro m a l tid
      by_cases hc : a < l
      · simp only [admitLoop, if_pos hc]
        cases hl : lookupTask m hd with
        | none => exact ih m a l tid
        | some t =>
            by_cases hq : t.status = "Queued"
            · simp only [if_pos hq]
              set m' := setTask m hd { t with status := "Scheduled", last_update := now } with hm'
              by_cases htid : tid = hd
              · subst htid
                rcases ih m' (a + 1) l tid with h1 | ⟨t2, ht2, hq2, hres⟩
                · refine Or.inr ⟨t, hl, hq, ?_⟩
                  rw [h1, hm', lookupTask_setTask_self]
                · rw [hm', lookupTask_setTask_self] at ht2
                  cases ht2
                  simp at hq2
              · rcases ih m' (a + 1) l tid with h1 | ⟨t2, ht2, hq2, hres⟩
                · left
                  rw [h1, hm', lookupTask_setTask_ne _ _ _ _ htid]
                · right
                  rw [hm', lookupTask_setTask_ne _ _ _ _ htid] at ht2
                  exact ⟨t2, ht2, hq2, hres⟩
            · simp only [if_neg hq]
              exact ih m a l tid
      · rw [admitLoop_stuck now _ m a l hc]
        exact Or.inl rfl

theorem admitLoop_lookup_of_not_queued (now : Nat) (ids : List Nat) (m : TaskMap)
    (a l : Int) (tid : Nat) (t : DownloadTask) (h : lookupTask m tid = some t)
    (hq : t.status ≠ "Queued") :
    lookupTask (admitLoop now ids m a l).1 tid = some t := by
  rcases admitLoop_lookup now ids m a l tid with h1 | ⟨t2, ht2, hq2, _⟩
  · rw [h1, h]
  · rw [h] at ht2
    cases ht2
    exact absurd hq2 hq

theorem admitLoop_lookup_none (now : Nat) (ids : List Nat) (m : TaskMap)
    (a l : Int) (tid : Nat) (h : lookupTask m tid = none) :
    lookupTask (admitLoop now ids m a l).1 tid = none := by
  rcases admitLoop_lookup now ids m a l tid with h1 | ⟨t2, ht2, _, _⟩
  · rw [h1, h]
  · rw [h] at ht2
    cases ht2

theorem admitLoop_started_take (now : Nat) :
    ∀ (ids : List Nat) (m : TaskMap) (a l : Int),
      (∀ tid ∈ ids, ∃ t, lookupTask m tid = some t ∧ t.status = "Queued") →
      ids.Nodup →
      (admitLoop now ids m a l).2.2 = ids.take (l - a).toNat := by
  intro ids
  induction ids with
  | nil => intro m a l _ _; simp only [List.take_nil]; rfl
  | cons hd rest ih =>
      intro m a l hall hnd
      by_cases hc : a < l
      · obtain ⟨t, hl, hq⟩ := hall hd (List.mem_cons_self _ _)
        simp only [admitLoop, if_pos hc, hl, if_pos hq]
        set m' := setTask m hd { t with status := "Scheduled", last_update := now } with hm'
        have hall' : ∀ tid ∈ rest, ∃ t2, lookupTask m' tid = some t2 ∧ t2.status = "Queued" := by
          intro tid htid
          obtain ⟨t2, hl2, hq2⟩ := hall tid (List.mem_cons_of_mem _ htid)
          have hne : tid ≠ hd := by
            intro hh
            subst hh
            exact (List.nodup_cons.mp hnd).1 htid
          exact ⟨t2, by rw [hm', lookupTask_setTask_ne _ _ _ _ hne]; exact hl2, hq2⟩
        have := ih m' (a + 1) l hall' (List.nodup_cons.mp hnd).2
        simp only [this]
        have hk : (l - a).toNat = (l - (a + 1)).toNat + 1 := by omega
        simp [hk]
      · rw [admitLoop_stuck now _ m a l hc]
        have : (l - a).toNat = 0 := by omega
        simp [this]

instance (m : TaskMap) : IsTotal Nat (schedLE m) := by
  constructor
  intro a b
  unfold schedLE
  omega

instance (m : TaskMap) : IsTrans Nat (schedLE m) := by
  constructor
  intro a b c
  unfold schedLE
  omega

theorem pair_sublist_of_mem {α : Type} [DecidableEq α] {a b : α} :
    ∀ {l : List α}, a ∈ l → b ∈ l → a ≠ b → List.Sublist [a, b] l ∨ List.Sublist [b, a] l := by
  intro l
  induction l with
  | nil => intro ha _ _; simp at ha
  | cons x xs ih =>
      intro ha hb hne
      by_cases hxa : x = a
      · subst hxa
        have hbx : b ∈ xs := by
          rcases List.mem_cons.mp hb with h | h
          · exact absurd h.symm hne
          · exact h
        exact Or.inl (List.Sublist.cons₂ _ (List.singleton_sublist.mpr hbx))
      · by_cases hxb : x = b
        · subst hxb
          have hax : a ∈ xs := by
            rcases List.mem_cons.mp ha with h | h
            · exact absurd h.symm hxa
            · exact h
          exact Or.inr (List.Sublist.cons₂ _ (List.singleton_sublist.mpr hax))
        · have ha' : a ∈ xs := by
            rcases List.mem_cons.mp ha with h | h
            · exact absurd h.symm hxa
            · exact h
          have hb' : b ∈ xs := by
            rcases List.mem_cons.mp hb with h | h
            · exact absurd h.symm hxb
            · exact h
          rcases ih ha' hb' hne with h | h
          · exact Or.inl (h.cons _)
          · exact Or.inr (h.cons _)

theorem mem_take_of_pair_sublist {α : Type} [DecidableEq α] {a b : α} :
    ∀ {l : List α} {k : Nat}, l.Nodup → List.Sublist [a, b] l → b ∈ l.take k → a ∈ l.take k := by
  intro l
  induction l with
  | nil => intro k _ hs hb; simp at hb
  | cons x xs ih =>
      intro k hnd hs hb
      cases k with
      | zero => simp at hb
      | succ k' =>
          simp only [List.take_succ_cons] at hb ⊢
          cases hs with
          | cons _ htail =>
              rcases List.mem_cons.mp hb with hbx | hb'
              · have hbxs : b ∈ xs := htail.subset (by simp)
                rw [hbx] at hbxs
                exact absurd hbxs (List.nodup_cons.mp hnd).1
              · exact List.mem_cons_of_mem _ (ih (List.nodup_cons.mp hnd).2 htail hb')
          | cons₂ _ htail =>
              exact List.mem_cons_self _ _

theorem sortedQueuedIds_queued (st : ServerState) :
    ∀ tid ∈ sortedQueuedIds st,
      ∃ t, lookupTask st.tasks tid = some t ∧ t.status = "Queued" := by
  intro tid htid
  have hq : tid ∈ queuedIds st :=
    (List.perm_insertionSort (schedLE st.tasks) (queuedIds st)).subset htid
  exact (statusIsQueued_iff _ _).mp (List.of_mem_filter hq)

theorem sortedQueuedIds_nodup (st : ServerState) (hnd : st.task_order.Nodup) :
    (sortedQueuedIds st).Nodup :=
  ((List.perm_insertionSort (schedLE st.tasks) (queuedIds st)).nodup_iff).mpr
    (hnd.filter _)

theorem sortedQueuedIds_pairwise (st : ServerState) :
    (sortedQueuedIds st).Pairwise (schedLE st.tasks) :=
  List.sorted_insertionSort (schedLE st.tasks) (queuedIds st)

theorem try_schedule_next_started (st : ServerState) (now : Nat)
    (hnd : st.task_order.Nodup) :
    (try_schedule_next st now).2 =
      (sortedQueuedIds st).take
        (st.current_concurrency - st.active_workers).toNat :=
  admitLoop_started_take now (sortedQueuedIds st) st.tasks st.active_workers
    st.current_concurrency (sortedQueuedIds_queued st)
    (sortedQueuedIds_nodup st hnd)

theorem priOf_eq {st : ServerState} {tid : Nat} {t : DownloadTask}
    (h : lookupTask st.tasks tid = some t) : priOf st.tasks tid = t.priority := by
  simp [priOf, h]

theorem createdOf_eq {st : ServerState} {tid : Nat} {t : DownloadTask}
    (h : lookupTask st.tasks tid = some t) : createdOf st.tasks tid = t.created_at := by
  simp [createdOf, h]

/-- C2: every admission pass snapshots the currently `Queued` jobs, sorts
them by `(-priority, created_at)` — higher priority first, ties by earlier
creation — and admits a prefix of that order. Hence among jobs `Queued` at
the moment of a pass, if `a` strictly outranks `b` (higher priority, or
equal priority and earlier creation with `a` submitted before `b`), then
`a` is admitted whenever `b` is. FIFO within a priority band follows for
submission-ordered creation stamps, including ties, by sort stability. -/
theorem C2_priority_fifo_admission (st : ServerState) (now : Nat)
    (a b : Nat) (ta tb : DownloadTask)
    (hnd : st.task_order.Nodup)
    (ha : lookupTask st.tasks a = some ta) (hb : lookupTask st.tasks b = some tb)
    (haq : ta.status = "Queued") (hbq : tb.status = "Queued")
    (hma : a ∈ st.task_order) (hmb : b ∈ st.task_order)
    (hcase : tb.priority < ta.priority ∨
      (ta.priority = tb.priority ∧ ta.created_at ≤ tb.created_at ∧
        List.Sublist [a, b] st.task_order))
    (hadm : b ∈ (try_schedule_next st now).2) :
    a ∈ (try_schedule_next st now).2 := by
  have haQ : statusIsQueued st.tasks a = true := (statusIsQueued_iff _ _).mpr ⟨ta, ha, haq⟩
  have hbQ : statusIsQueued st.tasks b = true := (statusIsQueued_iff _ _).mpr ⟨tb, hb, hbq⟩
  have hmaq : a ∈ queuedIds st := List.mem_filter.mpr ⟨hma, haQ⟩
  have hmbq : b ∈ queuedIds st := List.mem_filter.mpr ⟨hmb, hbQ⟩
  have hperm := List.perm_insertionSort (schedLE st.tasks) (queuedIds st)
  have hsnd : (sortedQueuedIds st).Nodup := sortedQueuedIds_nodup st hnd
  have hpair : List.Sublist [a, b] (sortedQueuedIds st) := by
    rcases hcase with hlt | ⟨hpe, hce, hsub⟩
    · have hne : a ≠ b := by
        intro h
        subst h
        rw [ha] at hb
        cases hb
        exact lt_irrefl _ hlt
      have hmas : a ∈ sortedQueuedIds st := hperm.mem_iff.mpr hmaq
      have hmbs : b ∈ sortedQueuedIds st := hperm.mem_iff.mpr hmbq
      rcases pair_sublist_of_mem hmas hmbs hne with hp | hp
      · exact hp
      · exfalso
        have hpw : List.Pairwise (schedLE st.tasks) [b, a] :=
          List.Pairwise.sublist hp (sortedQueuedIds_pairwise st)
        have hba : schedLE st.tasks b a :=
          (List.pairwise_cons.mp hpw).1 a (by simp)
        rw [schedLE, priOf_eq ha, priOf_eq hb] at hba
        rcases hba with h1 | ⟨h1, _⟩
        · exact absurd hlt (by omega)
        · exact absurd hlt (by omega)
    · have hfil : List.filter (fun tid => statusIsQueued st.tasks tid) [a, b] = [a, b] := by
        simp [haQ, hbQ]
      have hqsub : List.Sublist [a, b] (queuedIds st) := by
        have := List.Sublist.filter (fun tid => statusIsQueued st.tasks tid) hsub
        rw [hfil] at this
        exact this
      have hab : schedLE st.tasks a b :=
        Or.inr ⟨by rw [priOf_eq ha, priOf_eq hb]; exact hpe,
                by rw [createdOf_eq ha, createdOf_eq hb]; exact hce⟩
      exact List.pair_sublist_insertionSort hab hqsub
  rw [try_schedule_next_started st now hnd] at hadm ⊢
  exact mem_take_of_pair_sublist hsnd hpair hadm

theorem update_task_preserves (st : ServerState) (tid : Nat)
    (kwargs : List UpdateField) (now : Nat) :
    (update_task st tid kwargs now).2.task_order = st.task_order ∧
    (update_task st tid kwargs now).2.active_workers = st.active_workers ∧
    (update_task st tid kwargs now).2.current_concurrency = st.current_concurrency ∧
    (update_task st tid kwargs now).2.log_lines = st.log_lines ∧
    (update_task st tid kwargs now).2.task_counter = st.task_counter ∧
    (update_task st tid kwargs now).2.history = st.history := by
  unfold update_task
  cases lookupTask st.tasks tid <;> simp

theorem foldl_queueStep_preserves (payload : Payload) (priority : Int) (now : Nat) :
    ∀ (urls : List String) (acc : List DownloadTask × ServerState),
      ((urls.foldl (queueStep payload priority now) acc).2.active_workers =
         acc.2.active_workers ∧
       (urls.foldl (queueStep payload priority now) acc).2.current_concurrency =
         acc.2.current_concurrency ∧
       (urls.foldl (queueStep payload priority now) acc).2.history =
         acc.2.history) := by
  intro urls
  induction urls with
  | nil => intro acc; exact ⟨rfl, rfl, rfl⟩
  | cons u rest ih =>
      intro acc
      have h := ih (queueStep payload priority now acc u)
      simpa [queueStep] using h

theorem queue_tasks_preserves (st : ServerState) (payload : Payload) (now : Nat) :
    (queue_tasks st payload now).2.active_workers = st.active_workers ∧
    (queue_tasks st payload now).2.current_concurrency = st.current_concurrency := by
  simp only [queue_tasks]
  split
  · exact ⟨rfl, rfl⟩
  · have hf := foldl_queueStep_preserves payload
      (max 1 (min (priorityValOf payload) 10)) now (parsedUrls payload) ([], st)
    exact ⟨hf.1, hf.2.1⟩

theorem run_task_start_preserves (st : ServerState) (task : DownloadTask) (now : Nat) :
    (run_task_start st task now).active_workers = st.active_workers ∧
    (run_task_start st task now).current_concurrency = st.current_concurrency :=
  ⟨(update_task_preserves
      { st with log_lines := appendLog st.log_lines now ("Starting " ++ task.url) }
      task.id [.status "Running", .message "Preparing download", .progress 0] now).2.1,
   (update_task_preserves
      { st with log_lines := appendLog st.log_lines now ("Starting " ++ task.url) }
      task.id [.status "Running", .message "Preparing download", .progress 0] now).2.2.1⟩

theorem progress_hook_preserves (st : ServerState) (task_id : Nat)
    (info : ProgressInfo) (now : Nat) :
    (progress_hook st task_id info now).active_workers = st.active_workers ∧
    (progress_hook st task_id info now).current_concurrency = st.current_concurrency := by
  unfold progress_hook
  exact ⟨(update_task_preserves st task_id _ now).2.1,
         (update_task_preserves st task_id _ now).2.2.1⟩

set_option maxRecDepth 4000 in
theorem run_task_finish_body_preserves (st : ServerState) (task : DownloadTask)
    (ok : Bool) (err : String) (now : Nat) :
    (run_task_finish_body st task ok err now).active_workers = st.active_workers ∧
    (run_task_finish_body st task ok err now).current_concurrency = st.current_concurrency ∧
    (run_task_finish_body st task ok err now).task_order = st.task_order := by
  cases ok with
  | true =>
      have h := update_task_preserves st task.id
        [.status "Completed", .message "Download finished", .progress 100] now
      exact ⟨h.2.1, h.2.2.1, h.1⟩
  | false =>
      have h := update_task_preserves st task.id [.status "Failed", .message err] now
      exact ⟨h.2.1, h.2.2.1, h.1⟩

theorem try_schedule_next_active (st : ServerState) (now : Nat)
    (h0 : 0 ≤ st.active_workers)
    (hle : st.active_workers ≤ st.current_concurrency) :
    0 ≤ (try_schedule_next st now).1.active_workers ∧
    (try_schedule_next st now).1.active_workers ≤ st.current_concurrency :=
  ⟨admitLoop_active_nonneg now (sortedQueuedIds st) st.tasks st.active_workers
      st.current_concurrency h0,
   admitLoop_active_le now (sortedQueuedIds st) st.tasks st.active_workers
      st.current_concurrency hle⟩

/-- C1 (amended): every event that does not tune the concurrency limit
preserves the invariant `0 ≤ active_workers ∧ active_workers ≤
current_concurrency`: the admission loop admits only while
`active_workers < current_concurrency` and increments inside the same
exclusive window, and each job termination decrements (floored at `0`)
before re-running the pass. A `set_concurrency` shrink can break the upper
bound (see the counterexample), so limit-tuning events are excluded. -/
theorem C1_active_workers_bounded (st : ServerState) (e : Event)
    (h0 : 0 ≤ st.active_workers)
    (hle : st.active_workers ≤ st.current_concurrency)
    (he : e.tunesLimit = false) :
    0 ≤ (applyEvent st e).active_workers ∧
      (applyEvent st e).active_workers ≤ (applyEvent st e).current_concurrency := by
  cases e with
  | queue payload now =>
      have h := queue_tasks_preserves st payload now
      simp only [applyEvent]
      rw [h.1, h.2]
      exact ⟨h0, hle⟩
  | schedule now =>
      exact try_schedule_next_active st now h0 hle
  | runStart task now =>
      have h := run_task_start_preserves st task now
      simp only [applyEvent]
      rw [h.1, h.2]
      exact ⟨h0, hle⟩
  | progress task_id info now =>
      have h := progress_hook_preserves st task_id info now
      simp only [applyEvent]
      rw [h.1, h.2]
      exact ⟨h0, hle⟩
  | runFinish task ok err now =>
      have hb := run_task_finish_body_preserves st task ok err now
      have hc0 : (0 : Int) ≤ st.current_concurrency := le_trans h0 hle
      have h0m : (0 : Int) ≤
          max ((run_task_finish_body st task ok err now).active_workers - 1) 0 :=
        le_max_right _ _
      have hlem :
          max ((run_task_finish_body st task ok err now).active_workers - 1) 0 ≤
            (run_task_finish_body st task ok err now).current_concurrency := by
        rw [hb.1, hb.2.1]
        refine max_le ?_ hc0
        omega
      exact try_schedule_next_active
        { run_task_finish_body st task ok err now with
          active_workers :=
            max ((run_task_finish_body st task ok err now).active_workers - 1) 0 }
        now h0m hlem
  | clear now =>
      exact ⟨h0, hle⟩
  | setConcurrency n now => simp [Event.tunesLimit] at he
  | apiStart n now => simp [Event.tunesLimit] at he

/-- A minimal task literal for concrete test states. -/
def exTask (tid : Nat) (pri : Int) (created : Nat) (stat : String) : DownloadTask :=
  { id := tid, url := "u" ++ Nat.repr tid, output_dir := "downloads"
    format_mode := "Smart (best combined)", tags := [], notes := ""
    priority := pri, quality_filter := "best", status := stat, progress := 0
    eta := none, speed := none, message := stat, filepath := none
    created_at := created, last_update := created }

def payloadC1 : Payload := { urls := some "u1\nu2" }

/-- Two jobs queued, both admitted under limit 2, then the limit shrinks. -/
def stC1 : ServerState :=
  applyEvent
    (applyEvent (applyEvent initialState (Event.queue payloadC1 1)) (Event.schedule 2))
    (Event.setConcurrency 1 3)

/-- C1 counterexample: after two admissions under limit 2, a
`set_concurrency(1)` leaves `active_workers = 2` above the new limit `1`,
refuting "`active worker count ≤ current concurrency limit` at all times". -/
theorem C1_counterexample :
    stC1.current_concurrency < stC1.active_workers := by decide

/-- A state with one busy worker under limit 2, for the C1 witness. -/
def stC1w : ServerState :=
  { initialState with active_workers := 1, current_concurrency := 2 }

theorem C1_witness :
    0 ≤ (applyEvent stC1w (Event.schedule 5)).active_workers ∧
    (applyEvent stC1w (Event.schedule 5)).active_workers ≤
      (applyEvent stC1w (Event.schedule 5)).current_concurrency :=
  C1_active_workers_bounded stC1w (Event.schedule 5) (by decide) (by decide) (by decide)

theorem update_task_found (st : ServerState) (tid : Nat) (kwargs : List UpdateField)
    (now : Nat) (t : DownloadTask) (h : lookupTask st.tasks tid = some t) :
    update_task st tid kwargs now =
      (some { kwargs.foldl applyField t with last_update := now },
       { st with
           tasks := setTask st.tasks tid
             ({ kwargs.foldl applyField t with last_update := now }) }) := by
  unfold update_task
  rw [h]

theorem update_task_notfound (st : ServerState) (tid : Nat) (kwargs : List UpdateField)
    (now : Nat) (h : lookupTask st.tasks tid = none) :
    update_task st tid kwargs now = (none, st) := by
  unfold update_task
  rw [h]

theorem try_schedule_next_fixed (st : ServerState) (now : Nat) :
    (try_schedule_next st now).1.task_order = st.task_order ∧
    (try_schedule_next st now).1.current_concurrency = st.current_concurrency ∧
    (try_schedule_next st now).1.log_lines = st.log_lines ∧
    (try_schedule_next st now).1.task_counter = st.task_counter ∧
    (try_schedule_next st now).1.history = st.history :=
  ⟨rfl, rfl, rfl, rfl, rfl⟩

theorem try_schedule_next_lookup_not_queued (st : ServerState) (now : Nat)
    (tid : Nat) (t : DownloadTask) (h : lookupTask st.tasks tid = some t)
    (hq : t.status ≠ "Queued") :
    lookupTask (try_schedule_next st now).1.tasks tid = some t :=
  admitLoop_lookup_of_not_queued now (sortedQueuedIds st) st.tasks
    st.active_workers st.current_concurrency tid t h hq

theorem try_schedule_next_starts_nonempty (st : ServerState) (now : Nat)
    (hnd : st.task_order.Nodup)
    (hcap : st.active_workers < st.current_concurrency)
    (tid : Nat) (t : DownloadTask) (hmem : tid ∈ st.task_order)
    (ht : lookupTask st.tasks tid = some t) (hq : t.status = "Queued") :
    (try_schedule_next st now).2 ≠ [] := by
  rw [try_schedule_next_started st now hnd]
  have hQ : statusIsQueued st.tasks tid = true := (statusIsQueued_iff _ _).mpr ⟨t, ht, hq⟩
  have hmemq : tid ∈ queuedIds st := List.mem_filter.mpr ⟨hmem, hQ⟩
  have hmems : tid ∈ sortedQueuedIds st :=
    (List.perm_insertionSort (schedLE st.tasks) (queuedIds st)).mem_iff.mpr hmemq
  have hne : sortedQueuedIds st ≠ [] := List.ne_nil_of_mem hmems
  have hk : (st.current_concurrency - st.active_workers).toNat ≠ 0 := by omega
  intro hcontra
  rcases List.take_eq_nil_iff.mp hcontra with h | h
  · exact hk h
  · exact hne h

/-- Two queued jobs of priorities 5 and 2 under limit 2, for the C2 witness. -/
def stC2 : ServerState :=
  { initialState with
      tasks := [(1, exTask 1 2 1 "Queued"), (2, exTask 2 5 2 "Queued")]
      task_order := [1, 2]
      current_concurrency := 2
      task_counter := 3 }

theorem C2_witness : 2 ∈ (try_schedule_next stC2 3).2 :=
  C2_priority_fifo_admission stC2 3 2 1 (exTask 2 5 2 "Queued") (exTask 1 2 1 "Queued")
    (by decide) (by decide) (by decide) (by decide) (by decide)
    (by decide) (by decide) (Or.inl (by decide)) (by decide)

/-- The state reached by the `except` arm of `_run_task` plus the
`finally` decrement, spelled out for the C4 proof. -/
def failMid (st : ServerState) (task : DownloadTask) (t0 : DownloadTask)
    (err : String) (now : Nat) : ServerState :=
  { st with
      tasks := setTask st.tasks task.id
        ({ t0 with status := "Failed", message := err, last_update := now })
      log_lines := appendLog st.log_lines now ("Failed " ++ task.url ++ ": " ++ err)
      active_workers := max (st.active_workers - 1) 0 }

set_option maxRecDepth 16000 in
/-- C4: when the engine raises, the worker boundary catches it (the model is
total: `run_task_finish` with `ok = false` is the `except` arm): the job is
marked `Failed` with `message` equal to the error text, a failure line is
appended to the event log, the active worker count is decremented (floored
at zero), and the admission pass is re-run, admitting the next `Queued` job
whenever capacity remains and one exists. -/
theorem C4_engine_failure (st : ServerState) (task : DownloadTask)
    (t0 : DownloadTask) (err : String) (now : Nat)
    (ht : lookupTask st.tasks task.id = some t0)
    (hnd : st.task_order.Nodup) :
    (∃ t1, lookupTask (run_task_finish st task false err now).1.tasks task.id = some t1 ∧
       t1.status = "Failed" ∧ t1.message = err ∧ t1.last_update = now) ∧
    (run_task_finish st task false err now).1.log_lines =
      appendLog st.log_lines now ("Failed " ++ task.url ++ ": " ++ err) ∧
    (∃ mid, run_task_finish st task false err now = try_schedule_next mid now ∧
       mid.active_workers = max (st.active_workers - 1) 0 ∧
       mid.current_concurrency = st.current_concurrency ∧
       mid.task_order = st.task_order) ∧
    (∀ tid2 t2, tid2 ∈ st.task_order → tid2 ≠ task.id →
       lookupTask st.tasks tid2 = some t2 → t2.status = "Queued" →
       max (st.active_workers - 1) 0 < st.current_concurrency →
       (run_task_finish st task false err now).2 ≠ []) := by
  have hu := update_task_found st task.id
    [UpdateField.status "Failed", UpdateField.message err] now t0 ht
  have hbody : run_task_finish_body st task false err now =
      { st with
          tasks := setTask st.tasks task.id
            ({ t0 with status := "Failed", message := err, last_update := now })
          log_lines := appendLog st.log_lines now
            ("Failed " ++ task.url ++ ": " ++ err) } := by
    show ({ (update_task st task.id
        [UpdateField.status "Failed", UpdateField.message err] now).2 with
        log_lines := appendLog (update_task st task.id
          [UpdateField.status "Failed", UpdateField.message err] now).2.log_lines now
          ("Failed " ++ task.url ++ ": " ++ err) } : ServerState) = _
    rw [hu]
    rfl
  have hrun : run_task_finish st task false err now =
      try_schedule_next (failMid st task t0 err now) now := by
    show try_schedule_next ({ run_task_finish_body st task false err now with
      active_workers :=
        max ((run_task_finish_body st task false err now).active_workers - 1) 0 })
        now = _
    rw [hbody]
    rfl
  refine ⟨?_, ?_, ?_, ?_⟩
  · refine ⟨{ t0 with status := "Failed", message := err, last_update := now },
      ?_, rfl, rfl, rfl⟩
    rw [hrun]
    refine try_schedule_next_lookup_not_queued (failMid st task t0 err now) now
      task.id ({ t0 with status := "Failed", message := err, last_update := now })
      ?_ ?_
    · exact lookupTask_setTask_self st.tasks task.id _
    · intro hcontra
      simp at hcontra
  · rw [hrun]
    exact (try_schedule_next_fixed (failMid st task t0 err now) now).2.2.1
  · exact ⟨failMid st task t0 err now, hrun, rfl, rfl, rfl⟩
  · intro tid2 t2 hmem hne hl2 hq2 hcap
    rw [hrun]
    refine try_schedule_next_starts_nonempty (failMid st task t0 err now) now hnd hcap
      tid2 t2 hmem ?_ hq2
    show lookupTask (setTask st.tasks task.id
      ({ t0 with status := "Failed", message := err, last_update := now })) tid2 = some t2
    rw [lookupTask_setTask_ne _ _ _ _ hne]
    exact hl2

/-- One running job and one queued job under limit 1, for the C4 witness. -/
def stC4 : ServerState :=
  { initialState with
      tasks := [(1, exTask 1 3 1 "Running"), (2, exTask 2 3 2 "Queued")]
      task_order := [1, 2]
      active_workers := 1
      current_concurrency := 1
      task_counter := 3 }

set_option maxRecDepth 16000 in
theorem C4_witness :
    (∃ t1, lookupTask (run_task_finish stC4 (exTask 1 3 1 "Running") false "boom" 7).1.tasks
        1 = some t1 ∧ t1.status = "Failed" ∧ t1.message = "boom" ∧ t1.last_update = 7) ∧
    (run_task_finish stC4 (exTask 1 3 1 "Running") false "boom" 7).2 ≠ [] := by
  have h := C4_engine_failure stC4 (exTask 1 3 1 "Running") (exTask 1 3 1 "Running")
    "boom" 7 (by decide) (by decide)
  exact ⟨h.1, h.2.2.2 2 (exTask 2 3 2 "Queued")
    (by decide) (by decide) (by decide) (by decide) (by decide)⟩

set_option maxRecDepth 16000 in
/-- C5: the `/api/start` request reads `n`, and `set_concurrency(n)` clamps
it into `[1, MAX_WORKERS]`, logs the change, and is followed by exactly one
admission pass; shrinking never preempts a `Running` job (its registry entry
is untouched by the pass). -/
theorem C5_set_concurrency (st : ServerState) (n : Int) (now : Nat) :
    (api_start_queue st (some n) now).current_concurrency = max 1 (min n MAX_WORKERS) ∧
    (api_start_queue st (some n) now).log_lines =
      appendLog st.log_lines now
        ("Concurrency tuned to " ++ toString (max 1 (min n MAX_WORKERS))) ∧
    api_start_queue st (some n) now = (try_schedule_next (set_concurrency st n now) now).1 ∧
    (∀ tid t, lookupTask st.tasks tid = some t → t.status = "Running" →
      lookupTask (api_start_queue st (some n) now).tasks tid = some t) := by
  refine ⟨rfl, ?_, rfl, ?_⟩
  · exact (try_schedule_next_fixed (set_concurrency st n now) now).2.2.1
  · intro tid t hl hrun
    exact try_schedule_next_lookup_not_queued (set_concurrency st n now) now tid t hl
      (by rw [hrun]; decide)

/-- One running job, for the C5 witness. -/
def stC5 : ServerState :=
  { initialState with
      tasks := [(1, exTask 1 3 1 "Running")]
      task_order := [1]
      active_workers := 1
      current_concurrency := 2
      task_counter := 2 }

theorem C5_witness :
    (api_start_queue stC5 (some 5) 7).current_concurrency = max 1 (min 5 MAX_WORKERS) ∧
    lookupTask (api_start_queue stC5 (some 5) 7).tasks 1 = some (exTask 1 3 1 "Running") :=
  ⟨(C5_set_concurrency stC5 5 7).1,
   (C5_set_concurrency stC5 5 7).2.2.2 1 (exTask 1 3 1 "Running") (by decide) (by decide)⟩

theorem foldl_applyField_filter :
    ∀ (kwargs : List UpdateField) (t : DownloadTask),
      kwargs.foldl applyField t = (kwargs.filter isKnownField).foldl applyField t := by
  intro kwargs
  induction kwargs with
  | nil => intro t; rfl
  | cons f rest ih =>
      intro t
      cases f <;> simp [List.filter, isKnownField, applyField, ih]

/-- C7: `update_task` on an absent id returns the not-found signal `None`
and leaves the state untouched; on a present id it applies every recognized
field change in one registry write, ignores unknown field names, and always
refreshes `last_update`. -/
theorem C7_update_semantics (st : ServerState) (task_id : Nat)
    (kwargs : List UpdateField) (now : Nat) :
    (lookupTask st.tasks task_id = none → update_task st task_id kwargs now = (none, st)) ∧
    (∀ t, lookupTask st.tasks task_id = some t →
      update_task st task_id kwargs now =
        (some { kwargs.foldl applyField t with last_update := now },
         { st with
             tasks := setTask st.tasks task_id
               ({ kwargs.foldl applyField t with last_update := now }) }) ∧
      kwargs.foldl applyField t = (kwargs.filter isKnownField).foldl applyField t) :=
  ⟨fun h => update_task_notfound st task_id kwargs now h,
   fun t ht => ⟨update_task_found st task_id kwargs now t ht,
                foldl_applyField_filter kwargs t⟩⟩

/-- One queued job, for the C7 witness. -/
def stC7 : ServerState :=
  { initialState with
      tasks := [(1, exTask 1 3 1 "Queued")]
      task_order := [1]
      task_counter := 2 }

/-- A field-change set with one unknown key, for the C7 witness. -/
def kwC7 : List UpdateField :=
  [UpdateField.status "Running", UpdateField.unknownField "bogus",
   UpdateField.progress 5]

theorem C7_witness :
    update_task stC7 99 kwC7 9 = (none, stC7) ∧
    update_task stC7 1 kwC7 9 =
      (some { kwC7.foldl applyField (exTask 1 3 1 "Queued") with last_update := 9 },
       { stC7 with
           tasks := setTask stC7.tasks 1
             ({ kwC7.foldl applyField (exTask 1 3 1 "Queued") with last_update := 9 }) }) :=
  ⟨(C7_update_semantics stC7 99 kwC7 9).1 (by decide),
   ((C7_update_semantics stC7 1 kwC7 9).2 (exTask 1 3 1 "Queued") (by decide)).1⟩

/-- C9: a submission whose URL text parses to no surviving line (empty or
whitespace-only) creates zero jobs and returns the empty list, leaving the
registry, order sequence, id counter — the whole state — unchanged. -/
theorem C9_empty_submission (st : ServerState) (payload : Payload) (now : Nat)
    (h : parsedUrls payload = []) :
    queue_tasks st payload now = ([], st) := by
  simp [queue_tasks, h]

/-- A payload whose URL field is whitespace only, for the C9 witness. -/
def payC9 : Payload := { urls := some "  \n\t\n " }

theorem C9_witness : queue_tasks initialState payC9 4 = ([], initialState) :=
  C9_empty_submission initialState payC9 4 (by decide)

/-- C10: the snapshot insights are total on an empty registry: every
per-status count is `0` and the average progress is the guarded `0.0`. -/
theorem C10_insights_empty (st : ServerState) (h : st.tasks = []) :
    gather_insights st =
      { queued := 0, scheduled := 0, running := 0, completed := 0, failed := 0,
        avg_progress := 0 } := by
  simp [gather_insights, h, pyRound1]

theorem C10_witness :
    gather_insights initialState =
      { queued := 0, scheduled := 0, running := 0, completed := 0, failed := 0,
        avg_progress := 0 } :=
  C10_insights_empty initialState rfl

set_option maxRecDepth 16000 in
set_option maxHeartbeats 1000000 in
/-- C8: for every progress record and every registered job, the progress
reporter normalizes the record before applying it through `update_task`: a
numeric percentage is rounded to one decimal and a missing or non-numeric
one becomes `0.0`, the status text (defaulting to "running") is capitalized
for display, `eta`/`speed` are copied, the message shows the detected file
name (or the status text), a detected non-empty output filename is written
into the job's output file path, and `last_update` is refreshed. -/
theorem C8_progress_normalization (st : ServerState) (task_id : Nat)
    (info : ProgressInfo) (now : Nat) (t : DownloadTask)
    (ht : lookupTask st.tasks task_id = some t) :
    lookupTask (progress_hook st task_id info now).tasks task_id =
      some { t with
        progress := match info.percent with | some q => pyRound1 q | none => 0
        status := pyCapitalize (statusTextOf info)
        eta := info.eta
        speed := info.speed
        message := match pyOrStr (filenameOf info) (some (statusTextOf info)) with
                   | some s => s
                   | none => statusTextOf info
        filepath := match filenameOf info with
                    | some s => if s = "" then t.filepath else some s
                    | none => t.filepath
        last_update := now } := by
  have key : progress_hook st task_id info now =
      (update_task st task_id
        ([UpdateField.progress
            (match info.percent with | some q => pyRound1 q | none => 0),
          UpdateField.status (pyCapitalize (statusTextOf info)),
          UpdateField.eta info.eta, UpdateField.speed info.speed,
          UpdateField.message
            (match pyOrStr (filenameOf info) (some (statusTextOf info)) with
             | some s => s | none => statusTextOf info)] ++
         (match filenameOf info with
          | some s => if s = "" then [] else [UpdateField.filepath (some s)]
          | none => [])) now).2 := rfl
  rw [key, update_task_found st task_id _ now t ht]
  dsimp only
  rw [lookupTask_setTask_self]
  rcases hf : filenameOf info with _ | s
  · simp only [List.cons_append, List.nil_append, List.foldl_cons, List.foldl_nil,
      applyField]
  · by_cases hs : s = ""
    · simp only [hs, List.cons_append, List.nil_append, List.foldl_cons,
        List.foldl_nil, applyField]
      simp [pyOrStr]
    · simp only [if_neg hs, List.cons_append, List.nil_append, List.foldl_cons,
        List.foldl_nil, applyField]

/-- One running job, for the C8 witness and the C3 counterexample. -/
def stC8 : ServerState :=
  { initialState with
      tasks := [(1, exTask 1 3 1 "Running")]
      task_order := [1]
      active_workers := 1
      task_counter := 2 }

/-- A typical engine progress record: no numeric percent field, engine
status text `downloading`, a detected output filename. -/
def infoC8 : ProgressInfo :=
  { percent := none, speed := some 100, eta := some 3,
    status := some "downloading", filename := some "out.mp4",
    underscore_filename := none }

theorem C8_witness :
    lookupTask (progress_hook stC8 1 infoC8 9).tasks 1 =
      some { exTask 1 3 1 "Running" with
        progress := 0, status := "Downloading", eta := some 3, speed := some 100,
        message := "out.mp4", filepath := some "out.mp4", last_update := 9 } := by
  have h := C8_progress_normalization stC8 1 infoC8 9 (exTask 1 3 1 "Running") (by decide)
  rw [h]
  rfl

theorem foldl_queueStep_lookup (payload : Payload) (priority : Int) (now : Nat) :
    ∀ (urls : List String) (acc : List DownloadTask × ServerState) (tid : Nat),
      lookupTask (urls.foldl (queueStep payload priority now) acc).2.tasks tid =
          lookupTask acc.2.tasks tid ∨
      (acc.2.task_counter ≤ tid ∧
        ∃ t, lookupTask (urls.foldl (queueStep payload priority now) acc).2.tasks tid =
          some t ∧ t.status = "Queued") := by
  intro urls
  induction urls with
  | nil => intro acc tid; exact Or.inl rfl
  | cons u rest ih =>
      intro acc tid
      rcases ih (queueStep payload priority now acc u) tid with h | ⟨hc, t, hl, hq⟩
      · by_cases htid : tid = acc.2.task_counter
        · right
          refine ⟨le_of_eq htid.symm, mkTask payload u priority acc.2.task_counter now,
            ?_, rfl⟩
          rw [List.foldl_cons, h]
          show lookupTask (setTask acc.2.tasks acc.2.task_counter _) tid = _
          rw [htid, lookupTask_setTask_self]
        · left
          rw [List.foldl_cons, h]
          show lookupTask (setTask acc.2.tasks acc.2.task_counter _) tid = _
          rw [lookupTask_setTask_ne _ _ _ _ htid]
      · right
        refine ⟨?_, t, by rw [List.foldl_cons]; exact hl, hq⟩
        have : acc.2.task_counter + 1 ≤ tid := hc
        omega

theorem queue_tasks_lookup (st : ServerState) (payload : Payload) (now : Nat)
    (tid : Nat) :
    lookupTask (queue_tasks st payload now).2.tasks tid = lookupTask st.tasks tid ∨
    (st.task_counter ≤ tid ∧
      ∃ t, lookupTask (queue_tasks st payload now).2.tasks tid = some t ∧
        t.status = "Queued") := by
  by_cases h : parsedUrls payload = []
  · left
    simp [queue_tasks, h]
  · have hf := foldl_queueStep_lookup payload
      (max 1 (min (priorityValOf payload) 10)) now (parsedUrls payload) ([], st) tid
    have hq : queue_tasks st payload now =
        (parsedUrls payload).foldl
          (queueStep payload (max 1 (min (priorityValOf payload) 10)) now) ([], st) := by
      simp [queue_tasks, h]
    rw [hq]
    exact hf

theorem foldl_eraseP_sublist :
    ∀ (R : List Nat) (m : TaskMap),
      List.Sublist (R.foldl (fun m' tid => m'.eraseP (fun p => p.1 == tid)) m) m := by
  intro R
  induction R with
  | nil => intro m; exact List.Sublist.refl m
  | cons r rest ih =>
      intro m
      exact (ih _).trans (List.eraseP_sublist _)

theorem clear_completed_lookup (st : ServerState) (now : Nat)
    (hkeys : keysNodup st.tasks) (tid : Nat) (t' : DownloadTask)
    (h : lookupTask (clear_completed_tasks st now).2.tasks tid = some t') :
    lookupTask st.tasks tid = some t' := by
  have hsub : List.Sublist (clear_completed_tasks st now).2.tasks st.tasks :=
    foldl_eraseP_sublist _ st.tasks
  have hmem : (tid, t') ∈ (clear_completed_tasks st now).2.tasks :=
    mem_of_lookupTask_eq_some h
  exact lookupTask_eq_some_of_mem hkeys (hsub.subset hmem)

set_option maxRecDepth 16000 in
theorem run_task_start_tasks (st : ServerState) (task : DownloadTask) (now : Nat)
    (t0 : DownloadTask) (ht : lookupTask st.tasks task.id = some t0) :
    ∃ T, (run_task_start st task now).tasks = setTask st.tasks task.id T ∧
      T.status = "Running" := by
  have hu := update_task_found
    { st with log_lines := appendLog st.log_lines now ("Starting " ++ task.url) }
    task.id [.status "Running", .message "Preparing download", .progress 0] now t0 ht
  refine ⟨{ List.foldl applyField t0
      [.status "Running", .message "Preparing download", .progress 0] with
      last_update := now }, ?_, ?_⟩
  · show (update_task
      { st with log_lines := appendLog st.log_lines now ("Starting " ++ task.url) }
      task.id [.status "Running", .message "Preparing download", .progress 0]
      now).2.tasks = _
    rw [hu]
  · rfl

set_option maxRecDepth 16000 in
theorem run_task_finish_body_tasks (st : ServerState) (task : DownloadTask)
    (ok : Bool) (err : String) (now : Nat) (t0 : DownloadTask)
    (ht : lookupTask st.tasks task.id = some t0) :
    ∃ T, (run_task_finish_body st task ok err now).tasks = setTask st.tasks task.id T ∧
      (T.status = "Completed" ∨ T.status = "Failed") := by
  cases ok with
  | true =>
      have hu := update_task_found st task.id
        [.status "Completed", .message "Download finished", .progress 100] now t0 ht
      refine ⟨{ List.foldl applyField t0
          [.status "Completed", .message "Download finished", .progress 100] with
          last_update := now }, ?_, Or.inl ?_⟩
      · show (update_task st task.id
          [.status "Completed", .message "Download finished", .progress 100]
          now).2.tasks = _
        rw [hu]
      · rfl
  | false =>
      have hu := update_task_found st task.id
        [.status "Failed", .message err] now t0 ht
      refine ⟨{ List.foldl applyField t0 [.status "Failed", .message err] with
          last_update := now }, ?_, Or.inr ?_⟩
      · show (update_task st task.id [.status "Failed", .message err] now).2.tasks = _
        rw [hu]
      · rfl

set_option maxRecDepth 16000 in
set_option maxHeartbeats 1000000 in
/-- C3 (amended): for every event other than a progress-reporter callback —
given the program's structural invariants (unique dict keys, ids below the
allocator counter) and the worker discipline (a worker starts a task handed
to it as `Scheduled` and finishes the task it was running) — a job's status
only moves along `Queued → Scheduled → Running → {Completed | Failed}`, and
newly stored jobs start `Queued`; in particular terminal states are final
for these events. The progress reporter, however, stores the engine's
capitalized status text, which can lie outside the five states (see the
counterexample). -/
theorem C3_state_machine (st : ServerState) (e : Event)
    (hkeys : keysNodup st.tasks)
    (hfresh : ∀ k ∈ st.tasks.map Prod.fst, k < st.task_counter)
    (hwf : EventWF st e) (hnp : e.isProgress = false)
    (tid : Nat) (t' : DownloadTask)
    (hafter : lookupTask (applyEvent st e).tasks tid = some t') :
    (∀ t, lookupTask st.tasks tid = some t →
       t'.status = t.status ∨ allowedEdge t.status t'.status) ∧
    (lookupTask st.tasks tid = none → t'.status = "Queued") := by
  cases e with
  | progress task_id info now => simp [Event.isProgress] at hnp
  | queue payload now =>
      have hafter' : lookupTask (queue_tasks st payload now).2.tasks tid = some t' :=
        hafter
      rcases queue_tasks_lookup st payload now tid with h | ⟨hc, t2, hl2, hq2⟩
      · rw [h] at hafter'
        constructor
        · intro t htb
          rw [htb] at hafter'
          exact Or.inl (by rw [Option.some_inj.mp hafter'])
        · intro htb
          rw [htb] at hafter'
          cases hafter'
      · constructor
        · intro t htb
          exfalso
          have := hfresh tid (mem_keys_of_lookupTask_eq_some htb)
          omega
        · intro _
          have h2 : some t2 = some t' := hl2.symm.trans hafter'
          rw [← Option.some_inj.mp h2]
          exact hq2
  | schedule now =>
      have hafter' : lookupTask (admitLoop now (sortedQueuedIds st) st.tasks
          st.active_workers st.current_concurrency).1 tid = some t' := hafter
      rcases admitLoop_lookup now (sortedQueuedIds st) st.tasks st.active_workers
          st.current_concurrency tid with h | ⟨t2, hb, hq, haft⟩
      · rw [h] at hafter'
        constructor
        · intro t htb
          rw [htb] at hafter'
          exact Or.inl (by rw [Option.some_inj.mp hafter'])
        · intro htb
          rw [htb] at hafter'
          cases hafter'
      · rw [haft] at hafter'
        have ht' := Option.some_inj.mp hafter'
        constructor
        · intro t htb
          rw [htb] at hb
          have ht2 : t = t2 := Option.some_inj.mp hb
          right
          left
          constructor
          · rw [ht2]; exact hq
          · rw [← ht']
        · intro htb
          rw [htb] at hb
          cases hb
  | runStart task now =>
      obtain ⟨t0, ht0, hsched⟩ := hwf
      obtain ⟨T, hT, hTs⟩ := run_task_start_tasks st task now t0 ht0
      have hafter' : lookupTask (run_task_start st task now).tasks tid = some t' :=
        hafter
      rw [hT] at hafter'
      by_cases htid : tid = task.id
      · subst htid
        rw [lookupTask_setTask_self] at hafter'
        have ht' := Option.some_inj.mp hafter'
        constructor
        · intro t htb
          rw [ht0] at htb
          have ht00 : t0 = t := Option.some_inj.mp htb
          right
          right
          left
          constructor
          · rw [← ht00]; exact hsched
          · rw [← ht', ← hTs]
        · intro htb
          rw [htb] at ht0
          cases ht0
      · rw [lookupTask_setTask_ne _ _ _ _ htid] at hafter'
        constructor
        · intro t htb
          rw [htb] at hafter'
          exact Or.inl (by rw [Option.some_inj.mp hafter'])
        · intro htb
          rw [htb] at hafter'
          cases hafter'
  | runFinish task ok err now =>
      obtain ⟨t0, ht0, hrun0⟩ := hwf
      obtain ⟨T, hT, hTs⟩ := run_task_finish_body_tasks st task ok err now t0 ht0
      have hmt : ({ run_task_finish_body st task ok err now with
          active_workers :=
            max ((run_task_finish_body st task ok err now).active_workers - 1) 0 } :
          ServerState).tasks = setTask st.tasks task.id T := hT
      have hafter' : lookupTask (admitLoop now
          (sortedQueuedIds ({ run_task_finish_body st task ok err now with
            active_workers :=
              max ((run_task_finish_body st task ok err now).active_workers - 1) 0 }))
          ({ run_task_finish_body st task ok err now with
            active_workers :=
              max ((run_task_finish_body st task ok err now).active_workers - 1) 0 }).tasks
          ({ run_task_finish_body st task ok err now with
            active_workers :=
              max ((run_task_finish_body st task ok err now).active_workers - 1) 0 }).active_workers
          ({ run_task_finish_body st task ok err now with
            active_workers :=
              max ((run_task_finish_body st task ok err now).active_workers - 1) 0 }).current_concurrency).1
          tid = some t' := hafter
      rcases admitLoop_lookup now
          (sortedQueuedIds ({ run_task_finish_body st task ok err now with
            active_workers :=
              max ((run_task_finish_body st task ok err now).active_workers - 1) 0 }))
          ({ run_task_finish_body st task ok err now with
            active_workers :=
              max ((run_task_finish_body st task ok err now).active_workers - 1) 0 }).tasks
          ({ run_task_finish_body st task ok err now with
            active_workers :=
              max ((run_task_finish_body st task ok err now).active_workers - 1) 0 }).active_workers
          ({ run_task_finish_body st task ok err now with
            active_workers :=
              max ((run_task_finish_body st task ok err now).active_workers - 1) 0 }).current_concurrency
          tid with h | ⟨t2, hb, hq, haft⟩
      · rw [h, hmt] at hafter'
        by_cases htid : tid = task.id
        · subst htid
          rw [lookupTask_setTask_self] at hafter'
          have ht' := Option.some_inj.mp hafter'
          constructor
          · intro t htb
            rw [ht0] at htb
            have ht00 : t0 = t := Option.some_inj.mp htb
            right
            right
            right
            constructor
            · rw [← ht00]; exact hrun0
            · rw [← ht']; exact hTs
          · intro htb
            rw [htb] at ht0
            cases ht0
        · rw [lookupTask_setTask_ne _ _ _ _ htid] at hafter'
          constructor
          · intro t htb
            rw [htb] at hafter'
            exact Or.inl (by rw [Option.some_inj.mp hafter'])
          · intro htb
            rw [htb] at hafter'
            cases hafter'
      · rw [hmt] at hb
        rw [haft] at hafter'
        have ht' := Option.some_inj.mp hafter'
        by_cases htid : tid = task.id
        · exfalso
          subst htid
          rw [lookupTask_setTask_self] at hb
          have hT2 : T = t2 := Option.some_inj.mp hb
          rw [← hT2] at hq
          rcases hTs with hc | hc <;> rw [hc] at hq <;> simp at hq
        · rw [lookupTask_setTask_ne _ _ _ _ htid] at hb
          constructor
          · intro t htb
            rw [htb] at hb
            have ht2 : t = t2 := Option.some_inj.mp hb
            right
            left
            constructor
            · rw [ht2]; exact hq
            · rw [← ht']
          · intro htb
            rw [htb] at hb
            cases hb
  | clear now =>
      have hafter' : lookupTask (clear_completed_tasks st now).2.tasks tid = some t' :=
        hafter
      have hb := clear_completed_lookup st now hkeys tid t' hafter'
      constructor
      · intro t htb
        rw [htb] at hb
        exact Or.inl (by rw [Option.some_inj.mp hb])
      · intro htb
        rw [htb] at hb
        cases hb
  | setConcurrency n now =>
      have hafter' : lookupTask st.tasks tid = some t' := hafter
      constructor
      · intro t htb
        rw [htb] at hafter'
        exact Or.inl (by rw [Option.some_inj.mp hafter'])
      · intro htb
        rw [htb] at hafter'
        cases hafter'
  | apiStart n now =>
      have hafter' : lookupTask (admitLoop now
          (sortedQueuedIds (set_concurrency st (n.getD st.current_concurrency) now))
          (set_concurrency st (n.getD st.current_concurrency) now).tasks
          (set_concurrency st (n.getD st.current_concurrency) now).active_workers
          (set_concurrency st (n.getD st.current_concurrency) now).current_concurrency).1
          tid = some t' := hafter
      rcases admitLoop_lookup now
          (sortedQueuedIds (set_concurrency st (n.getD st.current_concurrency) now))
          (set_concurrency st (n.getD st.current_concurrency) now).tasks
          (set_concurrency st (n.getD st.current_concurrency) now).active_workers
          (set_concurrency st (n.getD st.current_concurrency) now).current_concurrency
          tid with h | ⟨t2, hb, hq, haft⟩
      · rw [h] at hafter'
        have hafter2 : lookupTask st.tasks tid = some t' := hafter'
        constructor
        · intro t htb
          rw [htb] at hafter2
          exact Or.inl (by rw [Option.some_inj.mp hafter2])
        · intro htb
          rw [htb] at hafter2
          cases hafter2
      · rw [haft] at hafter'
        have ht' := Option.some_inj.mp hafter'
        have hb2 : lookupTask st.tasks tid = some t2 := hb
        constructor
        · intro t htb
          rw [htb] at hb2
          have ht2 : t = t2 := Option.some_inj.mp hb2
          right
          left
          constructor
          · rw [ht2]; exact hq
          · rw [← ht']
        · intro htb
          rw [htb] at hb2
          cases hb2

/-- C3 counterexample: a progress record with the engine's status text
`downloading` drives the job's status field to `Downloading`, which is not
one of the five documented states — refuting the claim that no operation
(including progress reporting) ever sets a status outside them. -/
theorem C3_counterexample :
    (lookupTask (applyEvent stC8 (Event.progress 1 infoC8 9)).tasks 1).map
        DownloadTask.status = some "Downloading" ∧
    "Downloading" ∉ legalStatuses := by
  constructor
  · decide
  · decide

theorem C3_witness :
    (∀ t, lookupTask stC2.tasks 2 = some t →
       ({ exTask 2 5 2 "Queued" with status := "Scheduled", last_update := 3 } :
         DownloadTask).status = t.status ∨
       allowedEdge t.status
         ({ exTask 2 5 2 "Queued" with status := "Scheduled", last_update := 3 } :
           DownloadTask).status) ∧
    (lookupTask stC2.tasks 2 = none →
       ({ exTask 2 5 2 "Queued" with status := "Scheduled", last_update := 3 } :
         DownloadTask).status = "Queued") :=
  C3_state_machine stC2 (Event.schedule 3) (by decide) (by decide) trivial rfl 2
    ({ exTask 2 5 2 "Queued" with status := "Scheduled", last_update := 3 })
    (by decide)

theorem keysNodup_pair_eq {m : TaskMap} (hk : keysNodup m) {k : Nat}
    {a b : DownloadTask} (ha : (k, a) ∈ m) (hb : (k, b) ∈ m) : a = b := by
  have h1 := lookupTask_eq_some_of_mem hk ha
  have h2 := lookupTask_eq_some_of_mem hk hb
  rw [h1] at h2
  exact Option.some_inj.mp h2

theorem eraseP_key_eq_filter {m : TaskMap} (hk : keysNodup m) (k : Nat) :
    m.eraseP (fun p => p.1 == k) = m.filter (fun p => p.1 != k) := by
  induction m with
  | nil => rfl
  | cons p rest ih =>
      obtain ⟨k0, v0⟩ := p
      have hk0 : k0 ∉ rest.map Prod.fst := (List.nodup_cons.mp hk).1
      have hkr : keysNodup rest := (List.nodup_cons.mp hk).2
      by_cases h : k0 = k
      · subst h
        simp only [List.eraseP_cons, beq_self_eq_true, List.filter_cons, bne_self_eq_false,
          Bool.false_eq_true, if_false, cond_true]
        symm
        rw [List.filter_eq_self]
        intro p hp
        have : p.1 ∈ rest.map Prod.fst := List.mem_map.mpr ⟨p, hp, rfl⟩
        have hne : p.1 ≠ k0 := fun hh => hk0 (hh ▸ this)
        simpa using hne
      · simp only [List.eraseP_cons, List.filter_cons]
        have hbeq : (k0 == k) = false := beq_eq_false_iff_ne.mpr h
        have hbne : (k0 != k) = true := by simp [bne, hbeq]
        rw [hbeq, hbne]
        simp only [cond_false, if_true]
        rw [ih hkr]

theorem keysNodup_eraseP {m : TaskMap} (hk : keysNodup m) (k : Nat) :
    keysNodup (m.eraseP (fun p => p.1 == k)) := by
  have hs : List.Sublist (List.map Prod.fst (m.eraseP (fun p => p.1 == k)))
      (List.map Prod.fst m) := (List.eraseP_sublist _).map _
  exact hk.sublist hs

theorem foldl_eraseP_eq_filter :
    ∀ (R : List Nat) (m : TaskMap), keysNodup m →
      R.foldl (fun m' tid => m'.eraseP (fun p => p.1 == tid)) m =
        m.filter (fun p => decide (p.1 ∉ R)) := by
  intro R
  induction R with
  | nil =>
      intro m _
      rw [List.foldl_nil]
      symm
      rw [List.filter_eq_self]
      intro p _
      simp
  | cons r rest ih =>
      intro m hk
      rw [List.foldl_cons, ih _ (keysNodup_eraseP hk r), eraseP_key_eq_filter hk r,
        List.filter_filter]
      refine List.filter_congr ?_
      intro p _
      by_cases h1 : p.1 = r <;> by_cases h2 : p.1 ∈ rest <;>
        simp [h1, h2, List.mem_cons]

theorem foldl_erase_eq_filter :
    ∀ (R : List Nat) (o : List Nat), o.Nodup →
      R.foldl (fun o' tid => if tid ∈ o' then o'.erase tid else o') o =
        o.filter (fun x => decide (x ∉ R)) := by
  intro R
  induction R with
  | nil =>
      intro o _
      rw [List.foldl_nil]
      symm
      rw [List.filter_eq_self]
      intro x _
      simp
  | cons r rest ih =>
      intro o ho
      have hstep : (if r ∈ o then o.erase r else o) = o.filter (fun x => x != r) := by
        by_cases h : r ∈ o
        · rw [if_pos h]
          exact ho.erase_eq_filter r
        · rw [if_neg h]
          symm
          rw [List.filter_eq_self]
          intro x hx
          have : x ≠ r := fun hh => h (hh ▸ hx)
          simpa using this
      rw [List.foldl_cons, hstep]
      rw [ih _ (ho.filter _), List.filter_filter]
      refine List.filter_congr ?_
      intro x _
      by_cases h1 : x = r <;> by_cases h2 : x ∈ rest <;>
        simp [h1, h2, List.mem_cons]

theorem mem_to_remove_iff (st : ServerState) (hk : keysNodup st.tasks) (tid : Nat) :
    tid ∈ (st.tasks.filter (fun p => isTerminalStatus p.2.status)).map Prod.fst ↔
      ∃ t, lookupTask st.tasks tid = some t ∧ isTerminalStatus t.status = true := by
  constructor
  · intro h
    obtain ⟨p, hp, hfst⟩ := List.mem_map.mp h
    have hpm : p ∈ st.tasks := List.mem_of_mem_filter hp
    have hterm : isTerminalStatus p.2.status = true := (List.mem_filter.mp hp).2
    refine ⟨p.2, ?_, hterm⟩
    rw [← hfst]
    exact lookupTask_eq_some_of_mem hk hpm
  · rintro ⟨t, hl, hterm⟩
    exact List.mem_map.mpr ⟨(tid, t),
      List.mem_filter.mpr ⟨mem_of_lookupTask_eq_some hl, hterm⟩, rfl⟩

set_option maxRecDepth 16000 in
/-- C6: `clear_completed_tasks` removes exactly the jobs whose status is
`Completed` or `Failed` and returns their count; every non-terminal job
(`Queued`, `Scheduled`, `Running`) survives with its entry untouched, and
the order sequence is the original one with precisely the terminal ids
spliced out, so the relative display order of the survivors is preserved. -/
theorem C6_clear_terminal (st : ServerState) (now : Nat)
    (hk : keysNodup st.tasks) (ho : st.task_order.Nodup) :
    (clear_completed_tasks st now).1 =
      (st.tasks.filter (fun p => isTerminalStatus p.2.status)).length ∧
    (clear_completed_tasks st now).2.tasks =
      st.tasks.filter (fun p => !(isTerminalStatus p.2.status)) ∧
    (clear_completed_tasks st now).2.task_order =
      st.task_order.filter (fun tid =>
        match lookupTask st.tasks tid with
        | some t => !(isTerminalStatus t.status)
        | none => true) := by
  refine ⟨?_, ?_, ?_⟩
  · show ((st.tasks.filter (fun p => isTerminalStatus p.2.status)).map Prod.fst).length = _
    exact List.length_map _ _
  · have h : (clear_completed_tasks st now).2.tasks =
        st.tasks.filter (fun p => decide
          (p.1 ∉ (st.tasks.filter (fun q => isTerminalStatus q.2.status)).map Prod.fst)) :=
      foldl_eraseP_eq_filter _ st.tasks hk
    rw [h]
    refine List.filter_congr ?_
    intro p hp
    have hiff : p.1 ∈ (st.tasks.filter (fun q => isTerminalStatus q.2.status)).map Prod.fst ↔
        isTerminalStatus p.2.status = true := by
      rw [mem_to_remove_iff st hk p.1]
      constructor
      · rintro ⟨t, hl, hterm⟩
        have hl2 := lookupTask_eq_some_of_mem hk (show (p.1, p.2) ∈ st.tasks from hp)
        rw [hl2] at hl
        rw [Option.some_inj.mp hl]
        exact hterm
      · intro hterm
        exact ⟨p.2, lookupTask_eq_some_of_mem hk hp, hterm⟩
    by_cases hterm : isTerminalStatus p.2.status = true
    · simp [hterm, hiff.mpr hterm]
    · have hnm : p.1 ∉ (st.tasks.filter (fun q => isTerminalStatus q.2.status)).map Prod.fst :=
        fun hh => hterm (hiff.mp hh)
      simp [hnm, hterm]
  · have h : (clear_completed_tasks st now).2.task_order =
        st.task_order.filter (fun x => decide
          (x ∉ (st.tasks.filter (fun q => isTerminalStatus q.2.status)).map Prod.fst)) :=
      foldl_erase_eq_filter _ st.task_order ho
    rw [h]
    refine List.filter_congr ?_
    intro x _
    cases hl : lookupTask st.tasks x with
    | none =>
        have hnm : x ∉ (st.tasks.filter (fun q => isTerminalStatus q.2.status)).map Prod.fst := by
          intro hh
          obtain ⟨t, hl2, _⟩ := (mem_to_remove_iff st hk x).mp hh
          rw [hl] at hl2
          cases hl2
        simp [hnm]
    | some t =>
        have hiff : x ∈ (st.tasks.filter (fun q => isTerminalStatus q.2.status)).map Prod.fst ↔
            isTerminalStatus t.status = true := by
          rw [mem_to_remove_iff st hk x]
          constructor
          · rintro ⟨t2, hl2, hterm⟩
            rw [hl] at hl2
            rw [Option.some_inj.mp hl2]
            exact hterm
          · intro hterm
            exact ⟨t, hl, hterm⟩
        by_cases hterm : isTerminalStatus t.status = true
        · simp [hterm, hiff.mpr hterm]
        · have hnm : x ∉ (st.tasks.filter (fun q => isTerminalStatus q.2.status)).map Prod.fst :=
            fun hh => hterm (hiff.mp hh)
          simp [hnm, hterm]

/-- Scenario D of the spec: two `Completed`, one `Failed`, one `Running`. -/
def stC6 : ServerState :=
  { initialState with
      tasks := [(1, exTask 1 3 1 "Completed"), (2, exTask 2 3 2 "Completed"),
                (3, exTask 3 3 3 "Failed"), (4, exTask 4 3 4 "Running")]
      task_order := [1, 2, 3, 4]
      active_workers := 1
      task_counter := 5 }

theorem C6_witness :
    (clear_completed_tasks stC6 9).1 = 3 ∧
    (clear_completed_tasks stC6 9).2.task_order = [4] ∧
    lookupTask (clear_completed_tasks stC6 9).2.tasks 4 = some (exTask 4 3 4 "Running") := by
  have h := C6_clear_terminal stC6 9 (by decide) (by decide)
  refine ⟨h.1.trans (by decide), (h.2.2).trans (by decide), ?_⟩
  rw [h.2.1]
  decide
